import Mathlib

/-!
Verification of the log_analyzer repository (log_analyzer.py, log_query.py).

Strings from the Python source are modelled as `List Char`.  Instants are
UNIX timestamps modelled as `Nat` on the ingestion side (reference dates are
on or after 1970-01-01) and as `Int` on the query side.  Python's `datetime`
module (an external library) is modelled with a fixed UTC-like calendar:
`datetime.fromtimestamp`/`datetime.timestamp` are the civil-calendar
conversions defined below, with no DST.
-/

namespace LogAnalyzer

/-- ASCII whitespace, modelling the characters matched by `\s` in a Python
regex (and stripped by `str.strip()`) for ASCII input. -/
def isAsciiWs (c : Char) : Bool :=
  c = ' ' ∨ c = '\t' ∨ c = '\n' ∨ c = '\r' ∨ c = '\x0b' ∨ c = '\x0c'

/-- Decimal digit test, modelling `\d` (ASCII). -/
def isDig (c : Char) : Bool := 48 ≤ c.toNat ∧ c.toNat ≤ 57

/-- Numeric value of a digit character. -/
def dval (c : Char) : Nat := c.toNat - 48

/-- The digit character for `n % 10` (used to model `%02d`/`%04d` rendering). -/
def digitChar (n : Nat) : Char := Char.ofNat (48 + n % 10)

/-- Two-digit zero-padded rendering, as in `%02d`. -/
def pad2 (n : Nat) : List Char := [digitChar (n / 10), digitChar n]

/-- Three-digit zero-padded rendering, as in `%03d`. -/
def pad3 (n : Nat) : List Char := [digitChar (n / 100), digitChar (n / 10), digitChar n]

/-- Four-digit zero-padded rendering, as in `%04d`. -/
def pad4 (n : Nat) : List Char :=
  [digitChar (n / 1000), digitChar (n / 100), digitChar (n / 10), digitChar n]

/-- Python `str.lstrip()` for ASCII whitespace. -/
def lstripWs (cs : List Char) : List Char := cs.dropWhile isAsciiWs

/-- Python `str.rstrip()` for ASCII whitespace. -/
def rstripWs (cs : List Char) : List Char := (cs.reverse.dropWhile isAsciiWs).reverse

/-- Python `str.strip()` for ASCII whitespace. -/
def trim (cs : List Char) : List Char := rstripWs (lstripWs cs)

/-!
## log_analyzer.py — timestamp grammar and line reconstruction

`TIMESTAMP_PATTERN = re.compile(r'^((?:[01]\d|2[0-3]):[0-5]\d:[0-5]\d\.\d{3})\s+(.*)$')`

The time-of-day token of the pattern is fixed width (12 characters); the
alternation `[01]\d|2[0-3]` accepts exactly the two-digit strings whose value
is ≤ 23, and `[0-5]\d` exactly the two-digit strings whose value is ≤ 59.
-/

/-- The time-of-day token grammar of `TIMESTAMP_PATTERN`: `HH:MM:SS.mmm` with
`HH ≤ 23`, `MM ≤ 59`, `SS ≤ 59` and exactly three millisecond digits.
Returns the numeric components `(hour, minute, second, millisecond)`. -/
def parseTimeTok (cs : List Char) : Option (Nat × Nat × Nat × Nat) :=
  match cs with
  | [h1, h2, c1, m1, m2, c2, s1, s2, c3, d1, d2, d3] =>
    if c1 = ':' ∧ c2 = ':' ∧ c3 = '.' ∧
       isDig h1 ∧ isDig h2 ∧ isDig m1 ∧ isDig m2 ∧ isDig s1 ∧ isDig s2 ∧
       isDig d1 ∧ isDig d2 ∧ isDig d3 ∧
       10 * dval h1 + dval h2 ≤ 23 ∧ 10 * dval m1 + dval m2 ≤ 59 ∧
       10 * dval s1 + dval s2 ≤ 59 then
      some (10 * dval h1 + dval h2, 10 * dval m1 + dval m2, 10 * dval s1 + dval s2,
            100 * dval d1 + 10 * dval d2 + dval d3)
    else none
  | _ => none

/-- The canonical rendering of a time-of-day token; `parseTimeTok` accepts
exactly the renderings of in-range components. -/
def renderTimeTok (h m s ms : Nat) : List Char :=
  pad2 h ++ ':' :: pad2 m ++ ':' :: pad2 s ++ '.' :: pad3 ms

/-- Matching `TIMESTAMP_PATTERN.match(line)`: the 12-character time-of-day token,
followed by `\s+` (at least one whitespace character, consumed greedily),
followed by the remainder `(.*)`, which becomes `match.group(2)`.
Returns `(hour, minute, second, millisecond, message)`. -/
def matchTimestampLine (cs : List Char) : Option (Nat × Nat × Nat × Nat × List Char) :=
  match parseTimeTok (cs.take 12) with
  | none => none
  | some (h, m, s, ms) =>
    match cs.drop 12 with
    | [] => none
    | w :: rest =>
      if isAsciiWs w then some (h, m, s, ms, rest.dropWhile isAsciiWs) else none

/-- Model of `parse_time_to_unix_timestamp(time_str, reference_date)` (log_analyzer.py
lines 98-122): combines the reference date (modelled by the UNIX timestamp
`refMid` of its midnight; reference dates are on or after 1970-01-01) with the
time components at millisecond resolution and truncates to whole seconds with
`int(dt.timestamp())`.  The truncation is the `/ 1000` division. -/
def parse_time_to_unix_timestamp (refMid h m s ms : Nat) : Nat :=
  (refMid * 1000 + (h * 3600 + m * 60 + s) * 1000 + ms) / 1000

/-- Model of `line.rstrip('\n\r')` from process_log_file (line 159). -/
def stripNl (cs : List Char) : List Char :=
  (cs.reverse.dropWhile (fun c => c = '\n' ∨ c = '\r')).reverse

/-- The loop body of `process_log_file` (log_analyzer.py lines 152-185):
state is `current_timestamp : Option Nat` (initially `none`); a record
`(ts, message)` is inserted only when the current timestamp is not `None`
(the component and display-timestamp columns are uniform per file and per
instant and are omitted from the emitted pair). -/
def processLines (refMid : Nat) : Option Nat → List (List Char) → List (Nat × List Char)
  | _, [] => []
  | cur, line :: rest =>
    let l := stripNl line
    if l.isEmpty then processLines refMid cur rest
    else
      match matchTimestampLine l with
      | some (h, m, s, ms, msg) =>
        let t := parse_time_to_unix_timestamp refMid h m s ms
        (t, msg) :: processLines refMid (some t) rest
      | none =>
        match cur with
        | some t => (t, l) :: processLines refMid (some t) rest
        | none => processLines refMid none rest

/-- Model of `process_log_file` on a file's lines: the state machine starts with no
timestamp seen. -/
def process_log_file (refMid : Nat) (lines : List (List Char)) : List (Nat × List Char) :=
  processLines refMid none lines

/-!
## Civil (Gregorian) calendar

Model of the calendar arithmetic performed by Python's `datetime` library
(`datetime.fromtimestamp`, `datetime.timestamp`, `datetime.isoformat`,
`datetime.strptime`), with a fixed UTC-like timezone.
-/

/-- Gregorian leap-year rule. -/
def isLeap (y : Nat) : Bool := (y % 4 = 0 ∧ y % 100 ≠ 0) ∨ y % 400 = 0

/-- Number of days of month `m` (1-12) of year `y`. -/
def daysInMonth (y m : Nat) : Nat :=
  if m = 2 then (if isLeap y then 29 else 28)
  else if m = 4 ∨ m = 6 ∨ m = 9 ∨ m = 11 then 30
  else 31

/-- Days of year `y` strictly before month `m` (so `monthDaysBefore y 1 = 0`). -/
def monthDaysBefore (y : Nat) : Nat → Nat
  | 0 => 0
  | 1 => 0
  | m + 2 => monthDaysBefore y (m + 1) + daysInMonth y (m + 1)

/-- Number of days of year `y` (365 or 366). -/
def daysInYear (y : Nat) : Nat := monthDaysBefore y 13

/-- Total days of the years `1, …, y` of the proleptic Gregorian calendar
(in closed form; `daysThruYear_succ` below proves the defining recurrence
`daysThruYear (y+1) = daysThruYear y + daysInYear (y+1)`). -/
def daysThruYear (y : Nat) : Nat := 365 * y + y / 4 + y / 400 - y / 100

/-- Day number (counting from 0001-01-01 = 0) of the civil date `(y, m, d)`. -/
def daysFromCivil (y m d : Nat) : Nat :=
  daysThruYear (y - 1) + monthDaysBefore y m + (d - 1)

/-- Day number of the UNIX epoch 1970-01-01. -/
def epochDays : Nat := daysFromCivil 1970 1 1

/-- The civil date following `(y, m, d)`. -/
def nextDay (c : Nat × Nat × Nat) : Nat × Nat × Nat :=
  if c.2.2 < daysInMonth c.1 c.2.1 then (c.1, c.2.1, c.2.2 + 1)
  else if c.2.1 < 12 then (c.1, c.2.1 + 1, 1)
  else (c.1 + 1, 1, 1)

/-- The civil date `n` days after the UNIX epoch. -/
def civilFromDays (n : Nat) : Nat × Nat × Nat := nextDay^[n] (1970, 1, 1)

/-- A well-formed civil date at or after the epoch. -/
def ValidCivil (c : Nat × Nat × Nat) : Prop :=
  1970 ≤ c.1 ∧ 1 ≤ c.2.1 ∧ c.2.1 ≤ 12 ∧ 1 ≤ c.2.2 ∧ c.2.2 ≤ daysInMonth c.1 c.2.1

/-!
## Display timestamps and `parse_timestamp` (log_query.py lines 20-56)

`datetime.fromtimestamp(ts).isoformat() + 'Z'` renders a whole-second instant
as `YYYY-MM-DDTHH:MM:SS` followed by a literal `Z` (no fractional part since
the microsecond field is zero).
-/

/-- Model of `datetime.fromtimestamp(ts).isoformat()` for a whole-second `ts : Nat`. -/
def isoformat (ts : Nat) : List Char :=
  let c := civilFromDays (ts / 86400)
  let sod := ts % 86400
  pad4 c.1 ++ '-' :: pad2 c.2.1 ++ '-' :: pad2 c.2.2 ++
    'T' :: pad2 (sod / 3600) ++ ':' :: pad2 (sod % 3600 / 60) ++ ':' :: pad2 (sod % 60)

/-- Model of `datetime.fromtimestamp(ts).isoformat() + 'Z'` (log_analyzer.py line 179,
also line 61 of the migration). -/
def formatZ (ts : Nat) : List Char := isoformat ts ++ ['Z']

/-- Tail of a digit run: digits, with single underscores allowed between
digits (Python numeric-literal grouping). -/
def digitsTail : List Char → Bool
  | [] => true
  | c :: rest =>
    if c = '_' then
      match rest with
      | [] => false
      | c2 :: rest2 => isDig c2 && digitsTail rest2
    else isDig c && digitsTail rest

/-- A non-empty digit run, with single underscores allowed between digits. -/
def digitsOk : List Char → Bool
  | [] => false
  | c :: rest => isDig c && digitsTail rest

/-- Python `int(s)` digit-run parsing: a non-empty run of digits (single
underscores between digits allowed); anything else raises `ValueError`
(modelled as `none`). -/
def digitsVal (cs : List Char) : Option Nat :=
  if digitsOk cs then some ((cs.filter isDig).foldl (fun a c => a * 10 + dval c) 0)
  else none

/-- Python `int(s)` (see `digitsVal`). -/
def pyInt (cs : List Char) : Option Int :=
  match trim cs with
  | [] => none
  | c :: rest =>
    if c = '-' then (digitsVal rest).map (fun n => -(n : Int))
    else if c = '+' then (digitsVal rest).map (fun n => (n : Int))
    else (digitsVal (c :: rest)).map (fun n => (n : Int))

/-- Read exactly two digit characters (`strptime` with a zero-padded
two-digit field). -/
def read2 : List Char → Option (Nat × List Char)
  | c1 :: c2 :: rest =>
    if isDig c1 ∧ isDig c2 then some (10 * dval c1 + dval c2, rest) else none
  | _ => none

/-- Read exactly four digit characters (`strptime` `%Y`). -/
def read4 : List Char → Option (Nat × List Char)
  | c1 :: c2 :: c3 :: c4 :: rest =>
    if isDig c1 ∧ isDig c2 ∧ isDig c3 ∧ isDig c4 then
      some (1000 * dval c1 + 100 * dval c2 + 10 * dval c3 + dval c4, rest)
    else none
  | _ => none

/-- Expect a literal character. -/
def expectChar (c : Char) : List Char → Option (List Char)
  | x :: rest => if x = c then some rest else none
  | [] => none

/-- The UNIX timestamp of a civil date-time (what `datetime(...).timestamp()`
returns, with the fixed UTC-like timezone of this model). -/
def timestampOfCivil (y mo d h mi s : Nat) : Int :=
  ((daysFromCivil y mo d : Int) - (epochDays : Int)) * 86400 + (h * 3600 + mi * 60 + s)

/-- Model of `datetime.strptime(s, fmt).timestamp()` for the three fixed layouts of
`parse_timestamp`: `YYYY-MM-DD<sep>HH:MM:SS` with an optional literal
trailing `Z`, validated against the calendar (month 1-12, day within the
month, hour ≤ 23, minute and second ≤ 59, year ≥ 1). -/
def finishIso (y mo d h mi s : Nat) (r : List Char) : Option Int :=
  if r = [] ∧ 1 ≤ y ∧ 1 ≤ mo ∧ mo ≤ 12 ∧ 1 ≤ d ∧ d ≤ daysInMonth y mo ∧
     h ≤ 23 ∧ mi ≤ 59 ∧ s ≤ 59 then
    some (timestampOfCivil y mo d h mi s)
  else none

def parseIsoWith (sep : Char) (withZ : Bool) (cs : List Char) : Option Int :=
  (read4 cs).bind fun p1 =>
  (expectChar '-' p1.2).bind fun r2 =>
  (read2 r2).bind fun p2 =>
  (expectChar '-' p2.2).bind fun r4 =>
  (read2 r4).bind fun p3 =>
  (expectChar sep p3.2).bind fun r6 =>
  (read2 r6).bind fun p4 =>
  (expectChar ':' p4.2).bind fun r8 =>
  (read2 r8).bind fun p5 =>
  (expectChar ':' p5.2).bind fun r10 =>
  (read2 r10).bind fun p6 =>
  (if withZ then expectChar 'Z' p6.2 else some p6.2).bind fun r12 =>
  finishIso p1.1 p2.1 p3.1 p4.1 p5.1 p6.1 r12

/-- Model of `parse_timestamp` (log_query.py lines 20-56): strip, try `int()`, then the
three ISO layouts in order; `none` models `raise ValueError`. -/
def parse_timestamp (cs : List Char) : Option Int :=
  let t := trim cs
  match pyInt t with
  | some n => some n
  | none =>
    match parseIsoWith 'T' false t with
    | some v => some v
    | none =>
      match parseIsoWith 'T' true t with
      | some v => some v
      | none => parseIsoWith ' ' false t

/-!
## `parse_filter_expression` (log_query.py lines 59-133)

The raw filter string is split by
`re.split(r'\s+(AND|OR|\&\&|\|\|)\s+', filter_expr, flags=re.IGNORECASE)`,
which scans for the leftmost occurrences of whitespace + operator word +
whitespace and keeps the captured operator tokens in the result list.
-/

/-- ASCII lower-casing of one character (`str.lower` / `re.IGNORECASE` for
ASCII input). -/
def lowc (c : Char) : Char :=
  if 'A' ≤ c ∧ c ≤ 'Z' then Char.ofNat (c.toNat + 32) else c

/-- ASCII upper-casing of one character (`str.upper` for ASCII input). -/
def uppc (c : Char) : Char :=
  if 'a' ≤ c ∧ c ≤ 'z' then Char.ofNat (c.toNat - 32) else c

/-- Case-insensitively match the word `w` at the front of `cs`; returns the
matched original characters and the rest. -/
def stripCI : List Char → List Char → Option (List Char × List Char)
  | [], cs => some ([], cs)
  | _ :: _, [] => none
  | a :: w, c :: cs =>
    if uppc c = uppc a then
      (stripCI w cs).map (fun p => (c :: p.1, p.2))
    else none

/-- Match one of `AND|OR|&&|\|\|` (case-insensitive; the alternatives have
pairwise distinct first characters, so at most one can match) at the front of
`cs`; returns the matched text (the capture group) and the rest. -/
def matchOpWord (cs : List Char) : Option (List Char × List Char) :=
  match stripCI ("AND".data) cs with
  | some p => some p
  | none =>
    match stripCI ("OR".data) cs with
    | some p => some p
    | none =>
      match stripCI ("&&".data) cs with
      | some p => some p
      | none => stripCI ("||".data) cs

/-- Try to match `\s+(AND|OR|&&|\|\|)\s+` anchored at `cs`: at least one
whitespace character (the greedy `\s+` forces the operator word to start at
the end of the whitespace run), the operator word, and at least one trailing
whitespace character (consumed greedily).  Returns the captured operator text
and the rest of the string. -/
def trySepHere (cs : List Char) : Option (List Char × List Char) :=
  if (cs.takeWhile isAsciiWs).isEmpty then none
  else
    match matchOpWord (cs.dropWhile isAsciiWs) with
    | none => none
    | some (op, r) =>
      if (r.takeWhile isAsciiWs).isEmpty then none
      else some (op, r.dropWhile isAsciiWs)

/-- The `re.split` scanning loop: advance one character at a time looking for the
leftmost separator match; `acc` is the current segment, reversed.  `fuel`
bounds the recursion (every step consumes at least one character, so
`fuel = cs.length` suffices; the fuel-exhausted branch is unreachable). -/
def splitGo : Nat → List Char → List Char → List (List Char)
  | 0, acc, rest => [acc.reverse ++ rest]
  | fuel + 1, acc, cs =>
    match cs with
    | [] => [acc.reverse]
    | c :: rest =>
      match trySepHere cs with
      | some (op, after) => acc.reverse :: op :: splitGo fuel [] after
      | none => splitGo fuel (c :: acc) rest

/-- Model of `re.split(r'\s+(AND|OR|\&\&|\|\|)\s+', cs, flags=re.IGNORECASE)`. -/
def splitSep (cs : List Char) : List (List Char) := splitGo cs.length [] cs

/-- Model of `re.match(r'^not\s*\((.+)\)$', token, re.IGNORECASE)`: case-insensitive
`not`, optional whitespace, a literal `(`, a non-empty inner text (greedy, so
it extends to the final character, which must be `)`).  Returns the capture
group. -/
def notFuncMatch (t : List Char) : Option (List Char) :=
  match stripCI ("NOT".data) t with
  | none => none
  | some (_, r) =>
    match r.dropWhile isAsciiWs with
    | '(' :: rest =>
      match rest.reverse with
      | ')' :: innerRev => if innerRev.isEmpty then none else some innerRev.reverse
      | _ => none
    | _ => none

/-- Model of `re.match(r'^(NOT|!)\s*', token, re.IGNORECASE)` and the corresponding
`re.sub`: strip a leading case-insensitive `NOT` or a leading `!`, together
with any (possibly zero) following whitespace. -/
def notHeadStrip (t : List Char) : Option (List Char) :=
  match stripCI ("NOT".data) t with
  | some (_, r) => some (r.dropWhile isAsciiWs)
  | none =>
    match t with
    | '!' :: r => some (r.dropWhile isAsciiWs)
    | _ => none

/-- Negation detection of `parse_filter_expression` (lines 97-110): first the
`not(...)` wrapper, then the `NOT`/`!` head; each branch re-strips the
remaining atom. -/
def parseNeg (t : List Char) : Bool × List Char :=
  match notFuncMatch t with
  | some inner => (true, trim inner)
  | none =>
    match notHeadStrip t with
    | some rest => (true, trim rest)
    | none => (false, t)

/-- The recorded join operator of a condition (`"AND"`/`"OR"` after
normalisation of `&&`/`||`; `None` for the last condition). -/
inductive JoinOp where
  | andOp : JoinOp
  | orOp : JoinOp
deriving DecidableEq, Repr

/-- The kind of a parsed condition: `{"type": "general"}` or
`{"type": "field", "field": f}`. -/
inductive CondKind where
  | general : CondKind
  | fieldScoped : List Char → CondKind
deriving DecidableEq, Repr

/-- One parsed condition dict of `parse_filter_expression`. -/
structure Condition where
  kind : CondKind
  value : List Char
  negated : Bool
  op : Option JoinOp
deriving DecidableEq, Repr

/-- Normalisation of a captured operator token: `upper()` it; `OR` and `||`
become OR, everything else (including the default) is AND. -/
def normOp (tok : List Char) : JoinOp :=
  if tok.map uppc = "OR".data ∨ tok.map uppc = "||".data then .orOp else .andOp

/-- Build one condition from a (stripped and negation-processed) atom:
if it contains a colon, split on the first colon into field and value
(both stripped); otherwise a general condition. -/
def mkCondFrom (tok : List Char) (op : Option JoinOp) : Condition :=
  let t := trim tok
  let p := parseNeg t
  let a := p.2
  if ':' ∈ a then
    { kind := .fieldScoped (trim (a.takeWhile (fun c => ¬ c = ':'))),
      value := trim ((a.dropWhile (fun c => ¬ c = ':')).drop 1),
      negated := p.1, op := op }
  else
    { kind := .general, value := a, negated := p.1, op := op }

/-- The `while i < len(parts)` loop of `parse_filter_expression`: condition
tokens sit at even indices, operator tokens at odd indices; the operator is
recorded only when another condition follows (`i + 2 < len(parts)`). -/
def buildConds : List (List Char) → List Condition
  | [] => []
  | [tok] => [mkCondFrom tok none]
  | [tok, _] => [mkCondFrom tok none]
  | tok :: opTok :: next :: rest =>
    mkCondFrom tok (some (normOp opTok)) :: buildConds (next :: rest)

/-- Model of `parse_filter_expression` (log_query.py lines 59-133); the returned dict's
`"conditions"` list. -/
def parse_filter_expression (cs : List Char) : List Condition :=
  if cs.isEmpty then [] else buildConds (splitSep cs)

/-!
## `build_sql_query` (log_query.py lines 136-229) and SQLite semantics

The generated WHERE clause is `ts BETWEEN ? AND ?` plus, when at least one
filter atom survives, a parenthesised token sequence of atoms and `AND`/`OR`
keywords.  Atoms carry their bound parameter.  SQLite's `LIKE` is
case-insensitive for ASCII characters, `%` matches any run of characters and
`_` any single character; `AND` binds tighter than `OR`.
-/

/-- The column a `LIKE` atom targets. -/
inductive Col where
  | component : Col
  | message : Col
  | timestampCol : Col
deriving DecidableEq, Repr

/-- One SQL atom of the filter clause, with its bound parameter. -/
inductive Atom where
  | likeMatch : Col → List Char → Atom
  | likeNot : Col → List Char → Atom
  | tsEq : Int → Atom
  | tsNe : Int → Atom
deriving DecidableEq, Repr

/-- One token of the generated filter clause. -/
inductive Tok where
  | atom : Atom → Tok
  | andTok : Tok
  | orTok : Tok
deriving DecidableEq, Repr

/-- A stored row of the `logs` table. -/
structure LogRecord where
  ts : Int
  timestamp : List Char
  component : List Char
  message : List Char

/-- The `LIKE` pattern `f"%{value}%"`. -/
def likePat (v : List Char) : List Char := '%' :: (v ++ ['%'])

/-- The SQL atom generated for one condition (lines 170-196): fields
`component`, `message`, `timestamp` give a `LIKE` on that column; field `ts`
gives equality (inequality when negated) when `int(value)` succeeds and is
skipped (`continue`) when it fails; unknown fields and general conditions
give a `LIKE` on `message`. -/
def atomFor (c : Condition) : Option Atom :=
  match c.kind with
  | .general =>
    some (if c.negated then .likeNot .message (likePat c.value)
          else .likeMatch .message (likePat c.value))
  | .fieldScoped f =>
    if f = "component".data then
      some (if c.negated then .likeNot .component (likePat c.value)
            else .likeMatch .component (likePat c.value))
    else if f = "message".data then
      some (if c.negated then .likeNot .message (likePat c.value)
            else .likeMatch .message (likePat c.value))
    else if f = "timestamp".data then
      some (if c.negated then .likeNot .timestampCol (likePat c.value)
            else .likeMatch .timestampCol (likePat c.value))
    else if f = "ts".data then
      match pyInt c.value with
      | some v => some (if c.negated then .tsNe v else .tsEq v)
      | none => none
    else
      some (if c.negated then .likeNot .message (likePat c.value)
            else .likeMatch .message (likePat c.value))

/-- The operator token appended after a condition's atom: only when the
condition records an operator and it is not the last condition of the
original sequence (`i < len(conditions) - 1`). -/
def opToks (op : Option JoinOp) (rest : List Condition) : List Tok :=
  match op, rest with
  | some .andOp, _ :: _ => [.andTok]
  | some .orOp, _ :: _ => [.orTok]
  | _, _ => []

/-- The `filter_parts` loop of `build_sql_query` (lines 164-216): for each
condition, its atom (when not skipped) followed by its operator token (when
recorded and not last). -/
def buildFilterParts : List Condition → List Tok
  | [] => []
  | c :: rest =>
    match atomFor c with
    | none => buildFilterParts rest
    | some a => .atom a :: (opToks c.op rest ++ buildFilterParts rest)

/-- Whether a token list is a syntactically valid SQL boolean clause
(`atom (AND|OR atom)*`, or empty — in which case `build_sql_query` appends no
clause at all). -/
def wfTail : List Tok → Bool
  | [] => true
  | .andTok :: .atom _ :: rest => wfTail rest
  | .orTok :: .atom _ :: rest => wfTail rest
  | _ => false

/-- See `wfTail`. -/
def wellFormedClause : List Tok → Bool
  | [] => true
  | .atom _ :: rest => wfTail rest
  | _ => false

/-- SQLite `LIKE` (default, no `ESCAPE`, `case_sensitive_like` off):
`%` matches any sequence, `_` any single character, other characters match
case-insensitively (ASCII). -/
def likeMatches : List Char → List Char → Bool
  | [], s => s.isEmpty
  | a :: p, s =>
    if a = '%' then s.tails.any (fun t => likeMatches p t)
    else if a = '_' then
      match s with
      | [] => false
      | _ :: s1 => likeMatches p s1
    else
      match s with
      | [] => false
      | c :: s1 => lowc a = lowc c && likeMatches p s1

/-- Evaluate one SQL atom against a row. -/
def evalAtom (r : LogRecord) : Atom → Bool
  | .likeMatch col pat =>
    (match col with
     | .component => likeMatches pat r.component
     | .message => likeMatches pat r.message
     | .timestampCol => likeMatches pat r.timestamp)
  | .likeNot col pat =>
    !(match col with
      | .component => likeMatches pat r.component
      | .message => likeMatches pat r.message
      | .timestampCol => likeMatches pat r.timestamp)
  | .tsEq v => r.ts = v
  | .tsNe v => !(r.ts = v)

/-- Evaluate a well-formed clause tail with SQL operator precedence
(`AND` binds tighter than `OR`): `acc` is the value of the current
conjunction run. -/
def evalToksGo (r : LogRecord) : Bool → List Tok → Bool
  | acc, .andTok :: .atom a :: rest => evalToksGo r (acc && evalAtom r a) rest
  | acc, .orTok :: .atom a :: rest => acc || evalToksGo r (evalAtom r a) rest
  | acc, _ => acc

/-- SQLite evaluation of the generated filter clause; the empty clause (no
tokens) is true (no restriction). -/
def evalToks (r : LogRecord) : List Tok → Bool
  | [] => true
  | .atom a :: rest => evalToksGo r (evalAtom r a) rest
  | _ => false

/-- The query plan produced by `build_sql_query start_ts end_ts filters`:
the inclusive time window plus the filter-clause tokens (output fields,
ordering and LIMIT do not affect which rows match). -/
structure QueryPlan where
  startTs : Int
  endTs : Int
  filterToks : List Tok
deriving DecidableEq, Repr

/-- Model of `build_sql_query` (log_query.py lines 136-229), restricted to the row
predicate it generates: `WHERE ts BETWEEN ? AND ?` plus the filter clause. -/
def build_sql_query (startTs endTs : Int) (conds : List Condition) : QueryPlan :=
  { startTs := startTs, endTs := endTs, filterToks := buildFilterParts conds }

/-- The row predicate of a plan: `ts BETWEEN start AND end` (inclusive),
conjoined with the filter clause when one was appended. -/
def planPredicate (p : QueryPlan) (r : LogRecord) : Bool :=
  (decide (p.startTs ≤ r.ts) && decide (r.ts ≤ p.endTs)) &&
    (if p.filterToks = [] then true else evalToks r p.filterToks)

/-!
## Specification-side definitions

These follow the words of the spec and of the claims, for comparison with the
code-derived definitions above.
-/

/-- The sub-predicate of one condition (used by both combination semantics
below); skipped conditions count as `true` so that they drop out of
conjunctions — the combination theorems assume no condition is skipped. -/
def evalCond (r : LogRecord) (c : Condition) : Bool :=
  match atomFor c with
  | some a => evalAtom r a
  | none => true

/-- SQL-precedence combination of the sub-predicates (`AND` binds tighter
than `OR`), folded over each condition's recorded join operator. -/
def evalCondsSQLGo (r : LogRecord) : Bool → Option JoinOp → List Condition → Bool
  | acc, _, [] => acc
  | acc, some .andOp, c :: rest => evalCondsSQLGo r (acc && evalCond r c) c.op rest
  | acc, some .orOp, c :: rest => acc || evalCondsSQLGo r (evalCond r c) c.op rest
  | acc, none, _ :: _ => acc

/-- See `evalCondsSQLGo`. -/
def evalCondsSQL (r : LogRecord) : List Condition → Bool
  | [] => true
  | c :: rest => evalCondsSQLGo r (evalCond r c) c.op rest

/-- Modelled from the claim's words: the strict left-to-right fold of the
sub-predicates under each condition's recorded join operator, with no
precedence between AND and OR. -/
def evalCondsLRGo (r : LogRecord) : Bool → Option JoinOp → List Condition → Bool
  | acc, _, [] => acc
  | acc, some .andOp, c :: rest => evalCondsLRGo r (acc && evalCond r c) c.op rest
  | acc, some .orOp, c :: rest => evalCondsLRGo r (acc || evalCond r c) c.op rest
  | acc, none, _ :: _ => acc

/-- See `evalCondsLRGo`. -/
def evalCondsLR (r : LogRecord) : List Condition → Bool
  | [] => true
  | c :: rest => evalCondsLRGo r (evalCond r c) c.op rest

/-- Case-insensitive (ASCII) prefix test. -/
def isPrefCI : List Char → List Char → Bool
  | [], _ => true
  | _ :: _, [] => false
  | a :: v, c :: s => lowc a = lowc c && isPrefCI v s

/-- Modelled from the spec's words "substring match": `needle` occurs
contiguously in `hay`, compared case-insensitively (ASCII). -/
def containsCI (hay needle : List Char) : Bool :=
  hay.tails.any (fun t => isPrefCI needle t)

/-- Case-sensitive substring test (the spec's claimed semantics for C3). -/
def containsSub (hay needle : List Char) : Bool :=
  hay.tails.any (fun t => needle.isPrefixOf t)

/-- A filter value free of the `LIKE` metacharacters `%` and `_`. -/
def noMeta (v : List Char) : Bool := v.all (fun c => ¬ c = '%' ∧ ¬ c = '_')

/-- No condition of the list is skipped by `build_sql_query`. -/
def noSkips (conds : List Condition) : Bool := conds.all (fun c => (atomFor c).isSome)

/-- Every condition except possibly the last records a join operator (as the
parser guarantees). -/
def opsOk : List Condition → Bool
  | [] => true
  | c :: rest => (rest.isEmpty || c.op.isSome) && opsOk rest

theorem dval_digitChar (n : Nat) : dval (digitChar n) = n % 10 := by
  have h : n % 10 < 10 := Nat.mod_lt _ (by decide)
  unfold digitChar dval
  interval_cases h : (n % 10) <;> rfl

theorem isDig_digitChar (n : Nat) : isDig (digitChar n) = true := by
  have h : n % 10 < 10 := Nat.mod_lt _ (by decide)
  unfold digitChar isDig
  interval_cases h : (n % 10) <;> rfl

theorem digitChar_dval (c : Char) (h : isDig c = true) : digitChar (dval c) = c := by
  unfold isDig at h
  simp only [decide_eq_true_eq] at h
  unfold digitChar dval
  have : 48 + (c.toNat - 48) % 10 = c.toNat := by omega
  rw [this, Char.ofNat_toNat]

theorem daysInMonth_pos (y m : Nat) : 1 ≤ daysInMonth y m := by
  unfold daysInMonth
  split
  · split <;> omega
  · split <;> omega

theorem monthDaysBefore_succ (y m : Nat) (h : 1 ≤ m) :
    monthDaysBefore y (m + 1) = monthDaysBefore y m + daysInMonth y m := by
  obtain ⟨k, rfl⟩ : ∃ k, m = k + 1 := ⟨m - 1, by omega⟩
  rfl

theorem daysInYear_eq (y : Nat) : daysInYear y = if isLeap y then 366 else 365 := by
  simp only [daysInYear, monthDaysBefore, daysInMonth]
  norm_num
  split <;> omega

theorem daysThruYear_succ_if (y : Nat) :
    daysThruYear (y + 1) = daysThruYear y + (if isLeap (y + 1) then 366 else 365) := by
  have hle : y / 100 ≤ 365 * y + y / 4 + y / 400 :=
    calc y / 100 ≤ y := Nat.div_le_self y 100
      _ ≤ 365 * y := Nat.le_mul_of_pos_left y (by norm_num)
      _ ≤ 365 * y + y / 4 := Nat.le_add_right _ _
      _ ≤ 365 * y + y / 4 + y / 400 := Nat.le_add_right _ _
  unfold daysThruYear isLeap
  split
  · rename_i hL
    simp only [decide_eq_true_eq] at hL
    rcases hL with ⟨h4, h100⟩ | h400
    · have d4 : (y + 1) / 4 = y / 4 + 1 := by omega
      have d100 : (y + 1) / 100 = y / 100 := by omega
      have d400 : (y + 1) / 400 = y / 400 := by omega
      rw [d4, d100, d400,
        show 365 * (y + 1) + (y / 4 + 1) + y / 400 = 365 * y + y / 4 + y / 400 + 366 by ring]
      exact Nat.sub_add_comm hle
    · have d4 : (y + 1) / 4 = y / 4 + 1 := by omega
      have d100 : (y + 1) / 100 = y / 100 + 1 := by omega
      have d400 : (y + 1) / 400 = y / 400 + 1 := by omega
      rw [d4, d100, d400,
        show 365 * (y + 1) + (y / 4 + 1) + (y / 400 + 1) =
          365 * y + y / 4 + y / 400 + 366 + 1 by ring,
        Nat.add_sub_add_right]
      exact Nat.sub_add_comm hle
  · rename_i hL
    simp only [decide_eq_true_eq, not_or, not_and_or, not_not] at hL
    obtain ⟨h1, h2⟩ := hL
    rcases h1 with h1 | h1
    · have d4 : (y + 1) / 4 = y / 4 := by omega
      have d100 : (y + 1) / 100 = y / 100 := by omega
      have d400 : (y + 1) / 400 = y / 400 := by omega
      rw [d4, d100, d400,
        show 365 * (y + 1) + y / 4 + y / 400 = 365 * y + y / 4 + y / 400 + 365 by ring]
      exact Nat.sub_add_comm hle
    · have d4 : (y + 1) / 4 = y / 4 + 1 := by omega
      have d100 : (y + 1) / 100 = y / 100 + 1 := by omega
      have d400 : (y + 1) / 400 = y / 400 := by omega
      rw [d4, d100, d400,
        show 365 * (y + 1) + (y / 4 + 1) + y / 400 = 365 * y + y / 4 + y / 400 + 365 + 1 by ring,
        Nat.add_sub_add_right]
      exact Nat.sub_add_comm hle

theorem daysThruYear_succ (y : Nat) :
    daysThruYear (y + 1) = daysThruYear y + daysInYear (y + 1) := by
  rw [daysInYear_eq]
  exact daysThruYear_succ_if y

theorem validCivil_mk {y m d : Nat} (h1 : 1970 ≤ y) (h2 : 1 ≤ m) (h3 : m ≤ 12)
    (h4 : 1 ≤ d) (h5 : d ≤ daysInMonth y m) : ValidCivil (y, m, d) :=
  ⟨h1, h2, h3, h4, h5⟩

theorem daysFromCivil_nextDay (c : Nat × Nat × Nat) (h : ValidCivil c) :
    daysFromCivil (nextDay c).1 (nextDay c).2.1 (nextDay c).2.2 =
      daysFromCivil c.1 c.2.1 c.2.2 + 1 := by
  obtain ⟨y, m, d⟩ := c
  obtain ⟨hy, hm1, hm2, hd1, hd2⟩ := h
  simp only at hy hm1 hm2 hd1 hd2
  simp only [nextDay]
  split
  · simp only [daysFromCivil]
    omega
  · rename_i hdlt
    split
    · rename_i hmlt
      simp only [daysFromCivil]
      rw [monthDaysBefore_succ y m hm1]
      omega
    · rename_i hmge
      have hm12 : m = 12 := by omega
      subst hm12
      simp only [daysFromCivil, Nat.add_sub_cancel]
      have hdy : daysThruYear y = daysThruYear (y - 1) + daysInYear y := by
        obtain ⟨k, rfl⟩ : ∃ k, y = k + 1 := ⟨y - 1, by omega⟩
        simpa using daysThruYear_succ k
      have h13 : daysInYear y = monthDaysBefore y 12 + daysInMonth y 12 := by
        unfold daysInYear
        exact monthDaysBefore_succ y 12 (by omega)
      have hd12 : daysInMonth y 12 = 31 := by simp [daysInMonth]
      have h1 : monthDaysBefore (y + 1) 1 = 0 := rfl
      rw [h1]
      omega

theorem nextDay_valid (c : Nat × Nat × Nat) (h : ValidCivil c) : ValidCivil (nextDay c) := by
  obtain ⟨y, m, d⟩ := c
  obtain ⟨hy, hm1, hm2, hd1, hd2⟩ := h
  simp only at hy hm1 hm2 hd1 hd2
  simp only [nextDay]
  split
  · rename_i hlt
    exact validCivil_mk hy hm1 hm2 (by omega) (by omega)
  · split
    · exact validCivil_mk hy (by omega) (by omega) (le_refl 1) (daysInMonth_pos y (m + 1))
    · exact validCivil_mk (by omega) (by omega) (by omega) (le_refl 1) (daysInMonth_pos (y + 1) 1)

/-- The fundamental inverse property: walking `n` days forward from the epoch
lands on a valid civil date whose day number is `epochDays + n`. -/
theorem civilFromDays_spec (n : Nat) :
    ValidCivil (civilFromDays n) ∧
      daysFromCivil (civilFromDays n).1 (civilFromDays n).2.1 (civilFromDays n).2.2 =
        epochDays + n := by
  induction n with
  | zero =>
    have h0 : civilFromDays 0 = (1970, 1, 1) := rfl
    rw [h0]
    constructor
    · exact validCivil_mk (le_refl 1970) (le_refl 1) (by omega) (le_refl 1)
        (daysInMonth_pos 1970 1)
    · simp [epochDays]
  | succ k ih =>
    have hstep : civilFromDays (k + 1) = nextDay (civilFromDays k) :=
      Function.iterate_succ_apply' nextDay k (1970, 1, 1)
    constructor
    · rw [hstep]; exact nextDay_valid _ ih.1
    · rw [hstep, daysFromCivil_nextDay _ ih.1, ih.2]
      omega

theorem daysThruYear_mono {y1 y2 : Nat} (h : y1 ≤ y2) : daysThruYear y1 ≤ daysThruYear y2 := by
  induction y2 with
  | zero =>
    have : y1 = 0 := by omega
    subst this
    exact le_refl _
  | succ k ih =>
    rcases Nat.lt_or_ge y1 (k + 1) with h1 | h1
    · calc daysThruYear y1 ≤ daysThruYear k := ih (by omega)
        _ ≤ daysThruYear (k + 1) := by rw [daysThruYear_succ]; omega
    · have : y1 = k + 1 := by omega
      subst this
      exact le_refl _

theorem daysThruYear_9999 : daysThruYear 9999 = 3652059 := by decide

theorem epochDays_eq : epochDays = 719162 := by decide

/-- The year of `civilFromDays n` stays below 10000 for day numbers within
Python's `datetime` range. -/
theorem civilFromDays_year_le (n : Nat) (hn : n ≤ 2932896) : (civilFromDays n).1 ≤ 9999 := by
  by_contra hgt
  have h1 : 10000 ≤ (civilFromDays n).1 := by omega
  have hspec := civilFromDays_spec n
  have hmono : daysThruYear 9999 ≤ daysThruYear ((civilFromDays n).1 - 1) :=
    daysThruYear_mono (by omega)
  have hle : daysThruYear ((civilFromDays n).1 - 1) ≤
      daysFromCivil (civilFromDays n).1 (civilFromDays n).2.1 (civilFromDays n).2.2 := by
    unfold daysFromCivil
    omega
  rw [hspec.2, epochDays_eq] at hle
  rw [daysThruYear_9999] at hmono
  omega

/-!
## Helper lemmas about the line reconstructor
-/

theorem matchTimestampLine_nil : matchTimestampLine [] = none := rfl

theorem processLines_cons_empty (refMid : Nat) (cur : Option Nat) (line : List Char)
    (rest : List (List Char)) (h : stripNl line = []) :
    processLines refMid cur (line :: rest) = processLines refMid cur rest := by
  simp only [processLines, h, List.isEmpty_nil, if_true]

theorem processLines_cons_match (refMid : Nat) (cur : Option Nat) (line : List Char)
    (rest : List (List Char)) (h m s ms : Nat) (msg : List Char)
    (hm : matchTimestampLine (stripNl line) = some (h, m, s, ms, msg)) :
    processLines refMid cur (line :: rest) =
      (parse_time_to_unix_timestamp refMid h m s ms, msg) ::
        processLines refMid (some (parse_time_to_unix_timestamp refMid h m s ms)) rest := by
  have hne : (stripNl line).isEmpty = false := by
    rcases hl : stripNl line with _ | ⟨c, t⟩
    · rw [hl] at hm
      exact absurd hm (by simp [matchTimestampLine_nil])
    · rfl
  simp only [processLines, hne, Bool.false_eq_true, if_false, hm]

theorem processLines_cons_cont (refMid : Nat) (t : Nat) (line : List Char)
    (rest : List (List Char)) (hne : stripNl line ≠ [])
    (hm : matchTimestampLine (stripNl line) = none) :
    processLines refMid (some t) (line :: rest) =
      (t, stripNl line) :: processLines refMid (some t) rest := by
  have hne' : (stripNl line).isEmpty = false := by
    rcases hl : stripNl line with _ | ⟨c, r⟩
    · exact absurd hl hne
    · rfl
  simp only [processLines, hne', Bool.false_eq_true, if_false, hm]

theorem processLines_cons_orphan (refMid : Nat) (line : List Char)
    (rest : List (List Char)) (hm : matchTimestampLine (stripNl line) = none) :
    processLines refMid none (line :: rest) = processLines refMid none rest := by
  by_cases hl : (stripNl line).isEmpty
  · simp only [processLines, hl, if_true]
  · simp only [processLines, hl, Bool.false_eq_true, if_false, hm]

theorem parse_time_no_overflow (refMid h m s ms : Nat) (hms : ms ≤ 999) :
    parse_time_to_unix_timestamp refMid h m s ms = refMid + (h * 3600 + m * 60 + s) := by
  unfold parse_time_to_unix_timestamp
  omega

/-- Claim C2: reconstruction of the five-line example file, and the three
transition rules of the reconstructor.  A record `(instant, message)` is
emitted for every timestamp-bearing line (with the newly parsed instant,
which also becomes the new state) and for every non-empty non-matching line
seen while a current instant exists (with that unchanged instant and the full
stripped line); empty lines (after stripping trailing `\n`/`\r`) emit nothing
and leave the state unchanged. -/
theorem c2_line_reconstruction :
    (∀ refMid : Nat,
      process_log_file refMid
        [("10:00:00.000 A").data, ("cont1").data, ("10:00:01.000 B").data,
         ("").data, ("cont2").data] =
        [(refMid + 36000, ("A").data), (refMid + 36000, ("cont1").data),
         (refMid + 36001, ("B").data), (refMid + 36001, ("cont2").data)]) ∧
    (∀ (refMid : Nat) (cur : Option Nat) (line : List Char) (rest : List (List Char))
        (h m s ms : Nat) (msg : List Char),
      matchTimestampLine (stripNl line) = some (h, m, s, ms, msg) →
      processLines refMid cur (line :: rest) =
        (parse_time_to_unix_timestamp refMid h m s ms, msg) ::
          processLines refMid (some (parse_time_to_unix_timestamp refMid h m s ms)) rest) ∧
    (∀ (refMid t : Nat) (line : List Char) (rest : List (List Char)),
      stripNl line ≠ [] → matchTimestampLine (stripNl line) = none →
      processLines refMid (some t) (line :: rest) =
        (t, stripNl line) :: processLines refMid (some t) rest) ∧
    (∀ (refMid : Nat) (cur : Option Nat) (line : List Char) (rest : List (List Char)),
      stripNl line = [] →
      processLines refMid cur (line :: rest) = processLines refMid cur rest) := by
  refine ⟨?_, processLines_cons_match, processLines_cons_cont, processLines_cons_empty⟩
  intro refMid
  have e1 : matchTimestampLine (stripNl (("10:00:00.000 A").data)) =
      some (10, 0, 0, 0, ("A").data) := by decide
  have e2 : matchTimestampLine (stripNl (("cont1").data)) = none := by decide
  have e3 : matchTimestampLine (stripNl (("10:00:01.000 B").data)) =
      some (10, 0, 1, 0, ("B").data) := by decide
  have e4 : stripNl (("").data) = [] := by decide
  have e5 : matchTimestampLine (stripNl (("cont2").data)) = none := by decide
  have n2 : stripNl (("cont1").data) ≠ [] := by decide
  have n5 : stripNl (("cont2").data) ≠ [] := by decide
  have t1 : parse_time_to_unix_timestamp refMid 10 0 0 0 = refMid + 36000 := by
    unfold parse_time_to_unix_timestamp; omega
  have t2 : parse_time_to_unix_timestamp refMid 10 0 1 0 = refMid + 36001 := by
    unfold parse_time_to_unix_timestamp; omega
  unfold process_log_file
  rw [processLines_cons_match refMid none _ _ 10 0 0 0 _ e1, t1,
      processLines_cons_cont refMid _ _ _ n2 e2,
      processLines_cons_match refMid _ _ _ 10 0 1 0 _ e3, t2,
      processLines_cons_empty refMid _ _ _ e4,
      processLines_cons_cont refMid _ _ _ n5 e5]
  have s2 : stripNl (("cont1").data) = ("cont1").data := by decide
  have s5 : stripNl (("cont2").data) = ("cont2").data := by decide
  rw [s2, s5]
  rfl

/-- Claim C2 witness: the first rule of `c2_line_reconstruction` applied to a
concrete line. -/
theorem c2_line_reconstruction_witness :
    processLines 0 none [("10:00:00.000 A").data] = [(36000, ("A").data)] := by
  have h := c2_line_reconstruction.2.1 0 none (("10:00:00.000 A").data) [] 10 0 0 0
    (("A").data) (by decide)
  rw [h]
  decide

/-- Claim C7: every emitted record carries an instant (in this model records are
`Nat × List Char` pairs, mirroring the `current_timestamp is not None` guard
of the code); lines occurring before the first timestamp-bearing line are
silently discarded with no state change, so a leading block of non-matching
lines can be deleted without changing the output, and the two-line orphan
file yields exactly one record. -/
theorem c7_orphan_lines_discarded :
    (∀ (refMid : Nat) (pre rest : List (List Char)),
      (∀ l ∈ pre, matchTimestampLine (stripNl l) = none) →
      process_log_file refMid (pre ++ rest) = process_log_file refMid rest) ∧
    (∀ refMid : Nat,
      process_log_file refMid [("orphan").data, ("10:00:00.000 A").data] =
        [(refMid + 36000, ("A").data)]) := by
  constructor
  · intro refMid pre rest hpre
    induction pre with
    | nil => rfl
    | cons l pre' ih =>
      have hl := hpre l (by simp)
      have hrest : ∀ x ∈ pre', matchTimestampLine (stripNl x) = none := by
        intro x hx
        exact hpre x (by simp [hx])
      unfold process_log_file at ih ⊢
      rw [List.cons_append, processLines_cons_orphan refMid l _ hl]
      exact ih hrest
  · intro refMid
    have e1 : matchTimestampLine (stripNl (("orphan").data)) = none := by decide
    have e2 : matchTimestampLine (stripNl (("10:00:00.000 A").data)) =
        some (10, 0, 0, 0, ("A").data) := by decide
    have t1 : parse_time_to_unix_timestamp refMid 10 0 0 0 = refMid + 36000 := by
      unfold parse_time_to_unix_timestamp; omega
    unfold process_log_file
    rw [processLines_cons_orphan refMid _ _ e1,
        processLines_cons_match refMid none _ _ 10 0 0 0 _ e2, t1]
    rfl

/-- Claim C7 witness: the discard rule applied to a concrete file. -/
theorem c7_orphan_lines_discarded_witness :
    process_log_file 0 [("pre1").data, ("pre2").data] = process_log_file 0 [] := by
  exact c7_orphan_lines_discarded.1 0 [("pre1").data, ("pre2").data] [] (by decide)

/-!
## Helper lemmas about digits and the time-of-day token
-/

theorem dval_le_of_isDig (c : Char) (h : isDig c = true) : dval c ≤ 9 := by
  unfold isDig at h
  simp only [decide_eq_true_eq] at h
  unfold dval
  omega

theorem digitChar_congr {a b : Nat} (h : a % 10 = b % 10) : digitChar a = digitChar b := by
  unfold digitChar
  rw [h]

theorem renderTimeTok_explicit (h m s ms : Nat) :
    renderTimeTok h m s ms =
      [digitChar (h / 10), digitChar h, ':', digitChar (m / 10), digitChar m, ':',
       digitChar (s / 10), digitChar s, '.', digitChar (ms / 100), digitChar (ms / 10),
       digitChar ms] := by
  simp [renderTimeTok, pad2, pad3]

theorem parseTimeTok_render (h m s ms : Nat) (hh : h ≤ 23) (hm : m ≤ 59) (hs : s ≤ 59)
    (hms : ms ≤ 999) : parseTimeTok (renderTimeTok h m s ms) = some (h, m, s, ms) := by
  rw [renderTimeTok_explicit]
  simp only [parseTimeTok]
  split
  · simp only [Option.some.injEq, Prod.mk.injEq, dval_digitChar]
    omega
  · rename_i hcond
    exfalso
    apply hcond
    simp only [dval_digitChar, isDig_digitChar, and_true, true_and, eq_self_iff_true]
    omega

theorem parseTimeTok_sound (cs : List Char) (h m s ms : Nat)
    (hp : parseTimeTok cs = some (h, m, s, ms)) :
    h ≤ 23 ∧ m ≤ 59 ∧ s ≤ 59 ∧ ms ≤ 999 ∧ cs = renderTimeTok h m s ms := by
  unfold parseTimeTok at hp
  split at hp
  · rename_i h1 h2 c1 m1 m2 c2 s1 s2 c3 d1 d2 d3
    split at hp
    · rename_i hcond
      obtain ⟨e1, e2, e3, g1, g2, g3, g4, g5, g6, g7, g8, g9, b1, b2, b3⟩ := hcond
      simp only [Option.some.injEq, Prod.mk.injEq] at hp
      obtain ⟨eh, em, es, ems⟩ := hp
      have l1 := dval_le_of_isDig h1 g1
      have l2 := dval_le_of_isDig h2 g2
      have l3 := dval_le_of_isDig m1 g3
      have l4 := dval_le_of_isDig m2 g4
      have l5 := dval_le_of_isDig s1 g5
      have l6 := dval_le_of_isDig s2 g6
      have l7 := dval_le_of_isDig d1 g7
      have l8 := dval_le_of_isDig d2 g8
      have l9 := dval_le_of_isDig d3 g9
      refine ⟨by omega, by omega, by omega, by omega, ?_⟩
      rw [renderTimeTok_explicit]
      have k1 : digitChar (h / 10) = h1 := by
        rw [digitChar_congr (show (h / 10) % 10 = (dval h1) % 10 by omega),
          digitChar_dval h1 g1]
      have k2 : digitChar h = h2 := by
        rw [digitChar_congr (show h % 10 = (dval h2) % 10 by omega), digitChar_dval h2 g2]
      have k3 : digitChar (m / 10) = m1 := by
        rw [digitChar_congr (show (m / 10) % 10 = (dval m1) % 10 by omega),
          digitChar_dval m1 g3]
      have k4 : digitChar m = m2 := by
        rw [digitChar_congr (show m % 10 = (dval m2) % 10 by omega), digitChar_dval m2 g4]
      have k5 : digitChar (s / 10) = s1 := by
        rw [digitChar_congr (show (s / 10) % 10 = (dval s1) % 10 by omega),
          digitChar_dval s1 g5]
      have k6 : digitChar s = s2 := by
        rw [digitChar_congr (show s % 10 = (dval s2) % 10 by omega), digitChar_dval s2 g6]
      have k7 : digitChar (ms / 100) = d1 := by
        rw [digitChar_congr (show (ms / 100) % 10 = (dval d1) % 10 by omega),
          digitChar_dval d1 g7]
      have k8 : digitChar (ms / 10) = d2 := by
        rw [digitChar_congr (show (ms / 10) % 10 = (dval d2) % 10 by omega),
          digitChar_dval d2 g8]
      have k9 : digitChar ms = d3 := by
        rw [digitChar_congr (show ms % 10 = (dval d3) % 10 by omega), digitChar_dval d3 g9]
      rw [k1, k2, k3, k4, k5, k6, k7, k8, k9, e1, e2, e3]
    · exact absurd hp (by simp)
  · exact absurd hp (by simp)

/-- Claim C6: the time-of-day token is accepted exactly for `HH:MM:SS.mmm` with
`HH ≤ 23`, `MM, SS ≤ 59` and exactly three millisecond digits (sound and
complete with respect to the rendering `renderTimeTok`); the produced instant
drops the milliseconds by truncation (never rounding up), its wall-clock
hour, minute and second equal the input components; and the out-of-range
tokens `24:…`, `…:60:…`, `…:…:60.…` are rejected. -/
theorem c6_timestamp_codec :
    (∀ h m s ms : Nat, h ≤ 23 → m ≤ 59 → s ≤ 59 → ms ≤ 999 →
      parseTimeTok (renderTimeTok h m s ms) = some (h, m, s, ms)) ∧
    (∀ (cs : List Char) (h m s ms : Nat), parseTimeTok cs = some (h, m, s, ms) →
      h ≤ 23 ∧ m ≤ 59 ∧ s ≤ 59 ∧ ms ≤ 999 ∧ cs = renderTimeTok h m s ms) ∧
    (∀ refMid h m s ms : Nat, ms ≤ 999 →
      parse_time_to_unix_timestamp refMid h m s ms = refMid + (h * 3600 + m * 60 + s)) ∧
    (∀ refMid h m s : Nat, m ≤ 59 → s ≤ 59 →
      (refMid + (h * 3600 + m * 60 + s) - refMid) / 3600 = h ∧
      ((refMid + (h * 3600 + m * 60 + s) - refMid) % 3600) / 60 = m ∧
      (refMid + (h * 3600 + m * 60 + s) - refMid) % 60 = s) ∧
    (parseTimeTok (("24:00:00.000").data) = none ∧
     parseTimeTok (("00:60:00.000").data) = none ∧
     parseTimeTok (("00:00:60.000").data) = none ∧
     parseTimeTok (("10:00:00.00").data) = none ∧
     parseTimeTok (("10:00:00.0000").data) = none) := by
  refine ⟨parseTimeTok_render, parseTimeTok_sound, ?_, ?_, by decide⟩
  · intro refMid h m s ms hms
    unfold parse_time_to_unix_timestamp
    omega
  · intro refMid h m s hm hs
    refine ⟨by omega, by omega, by omega⟩

/-- Claim C6 witness: the codec at a concrete token, instant and components. -/
theorem c6_timestamp_codec_witness :
    parseTimeTok (("14:45:36.507").data) = some (14, 45, 36, 507) ∧
    parse_time_to_unix_timestamp 1000 14 45 36 507 = 1000 + (14 * 3600 + 45 * 60 + 36) := by
  refine ⟨?_, c6_timestamp_codec.2.2.1 1000 14 45 36 507 (by decide)⟩
  have h := c6_timestamp_codec.1 14 45 36 507 (by decide) (by decide) (by decide) (by decide)
  have hr : renderTimeTok 14 45 36 507 = ("14:45:36.507").data := by decide
  rw [hr] at h
  exact h

/-!
## Helper lemmas about the filter parser and LIKE patterns
-/

theorem trim_all_ws (cs : List Char) (h : ∀ c ∈ cs, isAsciiWs c = true) : trim cs = [] := by
  unfold trim lstripWs rstripWs
  rw [List.dropWhile_eq_nil_iff.2 h]
  rfl

theorem trySepHere_all_ws (cs : List Char) (h : ∀ c ∈ cs, isAsciiWs c = true) :
    trySepHere cs = none := by
  unfold trySepHere
  split
  · rfl
  · rw [List.dropWhile_eq_nil_iff.2 h]
    rfl

theorem splitGo_all_ws (fuel : Nat) (acc cs : List Char)
    (h : ∀ c ∈ cs, isAsciiWs c = true) : splitGo fuel acc cs = [acc.reverse ++ cs] := by
  induction fuel generalizing acc cs with
  | zero => rfl
  | succ f ih =>
    match cs with
    | [] => simp [splitGo]
    | c :: rest =>
      simp only [splitGo, trySepHere_all_ws _ h]
      rw [ih (c :: acc) rest (fun x hx => h x (by simp [hx]))]
      simp

theorem mkCondFrom_of_trim_nil (tok : List Char) (h : trim tok = []) :
    mkCondFrom tok none = ⟨.general, [], false, none⟩ := by
  unfold mkCondFrom
  rw [h]
  rfl

theorem likeMatches_pct (s : List Char) : likeMatches ['%'] s = true := by
  simp only [likeMatches, if_pos]
  rw [List.any_eq_true]
  exact ⟨[], (List.mem_tails [] s).2 List.nil_suffix, rfl⟩

theorem likeMatches_pat_nil (s : List Char) : likeMatches (likePat []) s = true := by
  show likeMatches ('%' :: [] ++ ['%']) s = true
  simp only [List.nil_append, likeMatches, if_pos]
  rw [List.any_eq_true]
  exact ⟨s, (List.mem_tails s s).2 (List.suffix_refl s), likeMatches_pct s⟩

/-- Claim C5 counterexample: the code's `re.match(r'^(NOT|!)\s*', …)` uses `\s*`
(zero or more), so the token `notice` IS treated as negated: its leading
`not` is stripped and the condition value becomes `ice`, contradicting the
claim that a token merely beginning with the letters `not` is not negated. -/
theorem c5_counterexample_notice :
    parse_filter_expression (("notice").data) =
      [⟨.general, ("ice").data, true, none⟩] := by decide

/-- Claim C5 (amended): negation detection first tries the `not(<inner>)` wrapper,
otherwise strips a leading case-insensitive `NOT` or a leading `!` together
with any (possibly zero) following whitespace — the `NOT` prefix is NOT
required to be whitespace-delimited, so `notice` parses as negated `ice`;
`not(error)`, `NOT error` and `!error` each yield one General condition with
value `error` and `negated = true`. -/
theorem c5_negation_detection :
    (parse_filter_expression (("not(error)").data) =
      [⟨.general, ("error").data, true, none⟩]) ∧
    (parse_filter_expression (("NOT error").data) =
      [⟨.general, ("error").data, true, none⟩]) ∧
    (parse_filter_expression (("!error").data) =
      [⟨.general, ("error").data, true, none⟩]) ∧
    (parse_filter_expression (("notice").data) =
      [⟨.general, ("ice").data, true, none⟩]) ∧
    (∀ t inner : List Char, notFuncMatch t = some inner → parseNeg t = (true, trim inner)) ∧
    (∀ t r : List Char, notFuncMatch t = none → notHeadStrip t = some r →
      parseNeg t = (true, trim r)) ∧
    (∀ t : List Char, notFuncMatch t = none → notHeadStrip t = none →
      parseNeg t = (false, t)) := by
  refine ⟨by decide, by decide, by decide, by decide, ?_, ?_, ?_⟩
  · intro t inner h
    unfold parseNeg
    rw [h]
  · intro t r h1 h2
    unfold parseNeg
    rw [h1, h2]
  · intro t h1 h2
    unfold parseNeg
    rw [h1, h2]

/-- Claim C5 witness: the wrapper rule of `c5_negation_detection` at a concrete
token. -/
theorem c5_negation_detection_witness :
    parseNeg (("not(x)").data) = (true, ("x").data) := by
  have h := c5_negation_detection.2.2.2.2.1 (("not(x)").data) (("x").data) (by decide)
  rw [h]
  decide

/-- Claim C8 counterexample: a whitespace-only filter string does NOT yield an
empty condition sequence — it yields one non-negated General condition with
empty value. -/
theorem c8_counterexample_whitespace :
    parse_filter_expression [' '] ≠ [] ∧
    parse_filter_expression [' '] = [⟨.general, [], false, none⟩] := by decide

/-- Claim C8 (amended): an empty filter string yields an empty condition sequence;
a whitespace-only string instead yields a single General condition with
empty value and no error; in both cases the built plan restricts only by the
inclusive time window (the empty-value pattern `%%` matches every message). -/
theorem c8_empty_and_whitespace_filters :
    (parse_filter_expression [] = []) ∧
    (∀ cs : List Char, cs ≠ [] → (∀ c ∈ cs, isAsciiWs c = true) →
      parse_filter_expression cs = [⟨.general, [], false, none⟩]) ∧
    (∀ (s e : Int) (r : LogRecord),
      planPredicate (build_sql_query s e []) r =
        (decide (s ≤ r.ts) && decide (r.ts ≤ e))) ∧
    (∀ (s e : Int) (r : LogRecord),
      planPredicate (build_sql_query s e [⟨.general, [], false, none⟩]) r =
        (decide (s ≤ r.ts) && decide (r.ts ≤ e))) := by
  refine ⟨rfl, ?_, ?_, ?_⟩
  · intro cs hne hws
    unfold parse_filter_expression
    rw [if_neg (by simpa using hne)]
    unfold splitSep
    rw [splitGo_all_ws cs.length [] cs hws]
    simp only [List.reverse_nil, List.nil_append]
    show buildConds [cs] = _
    unfold buildConds
    rw [mkCondFrom_of_trim_nil cs (trim_all_ws cs hws)]
  · intro s e r
    simp [planPredicate, build_sql_query, buildFilterParts]
  · intro s e r
    simp only [planPredicate, build_sql_query, buildFilterParts, atomFor, opToks,
      Bool.if_false_right, Bool.and_true]
    have : evalToks r [.atom (.likeMatch .message (likePat []))] = true := by
      simp [evalToks, evalToksGo, evalAtom, likeMatches_pat_nil]
    simp [this]

/-- Claim C8 witness: the whitespace rule and the window-only plan at concrete
inputs. -/
theorem c8_empty_and_whitespace_filters_witness :
    parse_filter_expression [' ', '\t'] = [⟨.general, [], false, none⟩] ∧
    planPredicate (build_sql_query 0 5 []) ⟨3, [], [], []⟩ = true := by
  constructor
  · exact c8_empty_and_whitespace_filters.2.1 [' ', '\t'] (by decide) (by decide)
  · rw [c8_empty_and_whitespace_filters.2.2.1 0 5 ⟨3, [], [], []⟩]
    decide

/-- Claim C10: filter values are interpolated unescaped into `%…%` LIKE patterns,
so a value containing `%` (or `_`) matches rows whose field does not contain
the value literally: `%` acts as an any-run wildcard and `_` as an
any-single-character wildcard. -/
theorem c10_like_metacharacters_unescaped :
    planPredicate (build_sql_query 0 0 [⟨.general, ("a%b").data, false, none⟩])
      ⟨0, [], [], ("aXXb").data⟩ = true ∧
    containsSub (("aXXb").data) (("a%b").data) = false ∧
    containsCI (("aXXb").data) (("a%b").data) = false ∧
    planPredicate (build_sql_query 0 0 [⟨.general, ("a_b").data, false, none⟩])
      ⟨0, [], [], ("aYb").data⟩ = true ∧
    containsSub (("aYb").data) (("a_b").data) = false ∧
    containsCI (("aYb").data) (("a_b").data) = false := by decide

theorem likeMatches_noMeta (v : List Char) (hv : noMeta v = true) :
    ∀ t, likeMatches (v ++ ['%']) t = isPrefCI v t := by
  induction v with
  | nil =>
    intro t
    simpa [isPrefCI] using likeMatches_pct t
  | cons a v' ih =>
    intro t
    have hm : (¬ a = '%' ∧ ¬ a = '_') ∧ noMeta v' = true := by
      unfold noMeta at hv
      simp only [List.all_cons, Bool.and_eq_true, decide_eq_true_eq] at hv
      exact ⟨hv.1, by unfold noMeta; exact hv.2⟩
    have ih' := ih hm.2
    simp only [List.cons_append, likeMatches, if_neg hm.1.1, if_neg hm.1.2]
    match t with
    | [] => rfl
    | c :: t' =>
      simp only [isPrefCI, List.append_eq, ih' t']

theorem likeMatches_likePat (v : List Char) (hv : noMeta v = true) (s : List Char) :
    likeMatches (likePat v) s = containsCI s v := by
  unfold likePat containsCI
  simp only [likeMatches, if_pos]
  simp only [likeMatches_noMeta v hv]

/-- Claim C3 counterexample: SQLite `LIKE` is case-insensitive for ASCII, so the
condition value `ERROR` matches a row whose component is `error`, although
`ERROR` is not a (case-sensitive) substring of `error` — the claimed
case-sensitive substring semantics fails. -/
theorem c3_counterexample_case :
    planPredicate
      (build_sql_query 0 0 [⟨.fieldScoped (("component").data), ("ERROR").data, false, none⟩])
      ⟨0, [], ("error").data, []⟩ = true ∧
    containsSub (("error").data) (("ERROR").data) = false := by decide

/-- Claim C3 (amended): for condition values free of the LIKE metacharacters `%`
and `_`, the compiled predicate is an ASCII case-INsensitive substring match
of the value against the targeted column (`component`, `message`, the
`timestamp` display column, or `message` for General conditions), and a
negated condition matches exactly the records where that substring is absent. -/
theorem c3_substring_semantics :
    ∀ v : List Char, noMeta v = true →
    ∀ (neg : Bool) (op : Option JoinOp) (r : LogRecord) (s e : Int),
      (evalCond r ⟨.fieldScoped (("component").data), v, neg, op⟩ =
        (if neg then !(containsCI r.component v) else containsCI r.component v)) ∧
      (evalCond r ⟨.fieldScoped (("message").data), v, neg, op⟩ =
        (if neg then !(containsCI r.message v) else containsCI r.message v)) ∧
      (evalCond r ⟨.fieldScoped (("timestamp").data), v, neg, op⟩ =
        (if neg then !(containsCI r.timestamp v) else containsCI r.timestamp v)) ∧
      (evalCond r ⟨.general, v, neg, op⟩ =
        (if neg then !(containsCI r.message v) else containsCI r.message v)) ∧
      (planPredicate (build_sql_query s e [⟨.general, v, neg, op⟩]) r =
        ((decide (s ≤ r.ts) && decide (r.ts ≤ e)) &&
          (if neg then !(containsCI r.message v) else containsCI r.message v))) := by
  intro v hv neg op r s e
  have hne1 : ¬ (("message").data = ("component").data) := by decide
  have hne2 : ¬ (("timestamp").data = ("component").data) := by decide
  have hne3 : ¬ (("timestamp").data = ("message").data) := by decide
  refine ⟨?_, ?_, ?_, ?_, ?_⟩
  · cases neg <;>
      simp [evalCond, atomFor, evalAtom, likeMatches_likePat v hv]
  · cases neg <;>
      simp [evalCond, atomFor, evalAtom, likeMatches_likePat v hv, hne1]
  · cases neg <;>
      simp [evalCond, atomFor, evalAtom, likeMatches_likePat v hv, hne2, hne3]
  · cases neg <;>
      simp [evalCond, atomFor, evalAtom, likeMatches_likePat v hv]
  · cases neg <;>
      simp [planPredicate, build_sql_query, buildFilterParts, atomFor, opToks,
        evalToks, evalToksGo, evalAtom, likeMatches_likePat v hv]

/-- Claim C3 witness: the General-condition clause of `c3_substring_semantics` at a
concrete value and record. -/
theorem c3_substring_semantics_witness :
    evalCond ⟨0, [], [], ("an error here").data⟩ ⟨.general, ("error").data, false, none⟩ =
      containsCI (("an error here").data) (("error").data) := by
  have h := (c3_substring_semantics (("error").data) (by decide) false none
    ⟨0, [], [], ("an error here").data⟩ 0 0).2.2.2.1
  simpa using h

theorem opToks_congr (op : Option JoinOp) {l1 l2 : List Condition}
    (h1 : l1 ≠ []) (h2 : l2 ≠ []) : opToks op l1 = opToks op l2 := by
  cases l1 with
  | nil => exact absurd rfl h1
  | cons x xs =>
    cases l2 with
    | nil => exact absurd rfl h2
    | cons y ys =>
      cases op with
      | none => rfl
      | some o => cases o <;> rfl

/-- Claim C4 counterexample: an invalid `ts` condition in LAST position leaves the
preceding condition's `AND` keyword dangling in the clause, so the plan is
NOT the same well-formed plan as with the condition removed. -/
theorem c4_counterexample_dangling :
    buildFilterParts [⟨.general, ("a").data, false, some .andOp⟩,
        ⟨.fieldScoped (("ts").data), ("xyz").data, false, none⟩] =
      [.atom (.likeMatch .message (likePat (("a").data))), .andTok] ∧
    buildFilterParts [⟨.general, ("a").data, false, some .andOp⟩] =
      [.atom (.likeMatch .message (likePat (("a").data)))] ∧
    wellFormedClause (buildFilterParts [⟨.general, ("a").data, false, some .andOp⟩,
        ⟨.fieldScoped (("ts").data), ("xyz").data, false, none⟩]) = false ∧
    wellFormedClause (buildFilterParts [⟨.general, ("a").data, false, some .andOp⟩]) =
      true := by decide

/-- Claim C4 (amended): a FieldScoped `ts` condition whose value does not parse as
an integer is silently dropped (no error is raised) and, whenever it is NOT
the last condition of the sequence, the remaining conditions' plan is exactly
the plan of the sequence with the condition removed; a lone invalid
condition yields the empty clause; but when the invalid condition is last
and follows a kept condition that records a join operator, that operator
token is left dangling and the clause is not well-formed.  When the value
does parse, the sub-predicate is equality of the record's instant with the
integer (inequality when negated). -/
theorem c4_invalid_ts_conditions :
    (∀ (pre : List Condition) (c : Condition) (post : List Condition),
      atomFor c = none → post ≠ [] →
      buildFilterParts (pre ++ c :: post) = buildFilterParts (pre ++ post)) ∧
    (∀ c : Condition, atomFor c = none → buildFilterParts [c] = []) ∧
    (∀ (v : List Char) (neg : Bool) (op : Option JoinOp), pyInt v = none →
      atomFor ⟨.fieldScoped (("ts").data), v, neg, op⟩ = none) ∧
    (∀ (v : List Char) (n : Int) (neg : Bool) (op : Option JoinOp) (r : LogRecord),
      pyInt v = some n →
      evalCond r ⟨.fieldScoped (("ts").data), v, neg, op⟩ =
        (if neg then !(decide (r.ts = n)) else decide (r.ts = n))) ∧
    (∀ (c1 c2 : Condition) (a : Atom) (o : JoinOp),
      atomFor c1 = some a → c1.op = some o → atomFor c2 = none →
      buildFilterParts [c1, c2] = [.atom a, if o = .andOp then .andTok else .orTok] ∧
      wellFormedClause (buildFilterParts [c1, c2]) = false) := by
  have hne1 : ¬ (("ts").data = ("component").data) := by decide
  have hne2 : ¬ (("ts").data = ("message").data) := by decide
  have hne3 : ¬ (("ts").data = ("timestamp").data) := by decide
  refine ⟨?_, ?_, ?_, ?_, ?_⟩
  · intro pre c post hc hpost
    induction pre with
    | nil => simp only [List.nil_append, buildFilterParts, hc]
    | cons p pre' ih =>
      cases hp : atomFor p with
      | none => simpa only [List.cons_append, buildFilterParts, hp, List.append_eq] using ih
      | some a =>
        simp only [List.cons_append, buildFilterParts, hp, List.append_eq]
        rw [opToks_congr p.op (by simp) (List.append_ne_nil_of_right_ne_nil pre' hpost), ih]
  · intro c hc
    simp only [buildFilterParts, hc]
  · intro v neg op hv
    simp [atomFor, hne1, hne2, hne3, hv]
  · intro v n neg op r hv
    cases neg <;> simp [evalCond, atomFor, evalAtom, hne1, hne2, hne3, hv]
  · intro c1 c2 a o h1 hop h2
    cases o <;>
      simp [buildFilterParts, h1, h2, hop, opToks, wellFormedClause, wfTail]

/-- Claim C4 witness: dropping a leading invalid `ts` condition leaves the plan of
the remaining condition unchanged. -/
theorem c4_invalid_ts_conditions_witness :
    buildFilterParts [⟨.fieldScoped (("ts").data), ("xyz").data, false, some .andOp⟩,
        ⟨.general, ("a").data, false, none⟩] =
      buildFilterParts [⟨.general, ("a").data, false, none⟩] := by
  have h := c4_invalid_ts_conditions.1 []
    ⟨.fieldScoped (("ts").data), ("xyz").data, false, some .andOp⟩
    [⟨.general, ("a").data, false, none⟩] (by decide) (by decide)
  simpa using h

theorem evalCond_eq_evalAtom (r : LogRecord) (c : Condition) (a : Atom)
    (ha : atomFor c = some a) : evalCond r c = evalAtom r a := by
  unfold evalCond
  rw [ha]

theorem opToks_and_cons (c : Condition) (l : List Condition) :
    opToks (some .andOp) (c :: l) = [.andTok] := rfl

theorem opToks_or_cons (c : Condition) (l : List Condition) :
    opToks (some .orOp) (c :: l) = [.orTok] := rfl

theorem evalToksGo_spec (r : LogRecord) :
    ∀ (rest : List Condition) (op : Option JoinOp) (acc : Bool),
      noSkips rest = true → opsOk rest = true → (rest.isEmpty || op.isSome) = true →
      evalToksGo r acc (opToks op rest ++ buildFilterParts rest) =
        evalCondsSQLGo r acc op rest := by
  intro rest
  induction rest with
  | nil =>
    intro op acc _ _ _
    cases op with
    | none => rfl
    | some o => cases o <;> rfl
  | cons c rest' ih =>
    intro op acc hskips hops hopSome
    obtain ⟨a, ha⟩ : ∃ a, atomFor c = some a := by
      unfold noSkips at hskips
      simp only [List.all_cons, Bool.and_eq_true, Option.isSome_iff_exists] at hskips
      exact hskips.1
    have hskips' : noSkips rest' = true := by
      unfold noSkips at hskips ⊢
      simp only [List.all_cons, Bool.and_eq_true] at hskips
      exact hskips.2
    have hops2 : (rest'.isEmpty || c.op.isSome) = true ∧ opsOk rest' = true := by
      unfold opsOk at hops
      simpa using hops
    obtain ⟨o, rfl⟩ : ∃ o, op = some o := by
      cases op with
      | none => simp at hopSome
      | some o => exact ⟨o, rfl⟩
    have hec : evalCond r c = evalAtom r a := evalCond_eq_evalAtom r c a ha
    cases o with
    | andOp =>
      rw [opToks_and_cons]
      simp only [buildFilterParts, ha, List.cons_append, List.nil_append,
        evalToksGo, evalCondsSQLGo]
      rw [ih c.op (acc && evalAtom r a) hskips' hops2.2 hops2.1, hec]
    | orOp =>
      rw [opToks_or_cons]
      simp only [buildFilterParts, ha, List.cons_append, List.nil_append,
        evalToksGo, evalCondsSQLGo]
      rw [ih c.op (evalAtom r a) hskips' hops2.2 hops2.1, hec]

/-- Claim C1 counterexample: for the condition sequence
`[General "a" (op=OR), General "b" (op=AND), General "c" (op=null)]` and a
record whose message contains only `a`, the generated clause
`message LIKE '%a%' OR message LIKE '%b%' AND message LIKE '%c%'` is TRUE
under SQL evaluation (`a OR (b AND c)`), while the claimed left-to-right fold
`((a OR b) AND c)` is FALSE, so the combined predicate does not equal the
left-to-right fold. -/
theorem c1_counterexample_or_then_and :
    evalToks ⟨0, [], [], ("a").data⟩
      (buildFilterParts [⟨.general, ("a").data, false, some .orOp⟩,
        ⟨.general, ("b").data, false, some .andOp⟩,
        ⟨.general, ("c").data, false, none⟩]) = true ∧
    evalCondsLR ⟨0, [], [], ("a").data⟩
      [⟨.general, ("a").data, false, some .orOp⟩,
       ⟨.general, ("b").data, false, some .andOp⟩,
       ⟨.general, ("c").data, false, none⟩] = false ∧
    planPredicate (build_sql_query 0 0 [⟨.general, ("a").data, false, some .orOp⟩,
        ⟨.general, ("b").data, false, some .andOp⟩,
        ⟨.general, ("c").data, false, none⟩]) ⟨0, [], [], ("a").data⟩ = true := by decide

/-- Claim C1 (amended): the per-condition sub-predicates are concatenated
left-to-right into a flat clause, but that clause is evaluated with SQL
operator precedence — `AND` binds tighter than `OR` — not as a left-to-right
fold.  For every sequence with no skipped condition and operators recorded on
all non-final conditions, the generated clause is equivalent to the
AND-before-OR combination (`evalCondsSQL`); in particular the claim's example
`[General "err" AND, FieldScoped component "x" OR, General "warn"]` compiles
to `(message~err AND component~x) OR message~warn`, where left-to-right and
SQL precedence happen to coincide. -/
theorem c1_combination_precedence :
    (∀ (conds : List Condition) (r : LogRecord),
      noSkips conds = true → opsOk conds = true →
      evalToks r (buildFilterParts conds) = evalCondsSQL r conds) ∧
    (∀ (va vb vc : List Char) (r : LogRecord),
      evalToks r (buildFilterParts
        [⟨.general, va, false, some .andOp⟩,
         ⟨.fieldScoped (("component").data), vb, false, some .orOp⟩,
         ⟨.general, vc, false, none⟩]) =
      ((likeMatches (likePat va) r.message && likeMatches (likePat vb) r.component) ||
        likeMatches (likePat vc) r.message)) := by
  constructor
  · intro conds r hskips hops
    cases conds with
    | nil => rfl
    | cons c rest =>
      obtain ⟨a, ha⟩ : ∃ a, atomFor c = some a := by
        unfold noSkips at hskips
        simp only [List.all_cons, Bool.and_eq_true, Option.isSome_iff_exists] at hskips
        exact hskips.1
      have hskips' : noSkips rest = true := by
        unfold noSkips at hskips ⊢
        simp only [List.all_cons, Bool.and_eq_true] at hskips
        exact hskips.2
      have hops2 : (rest.isEmpty || c.op.isSome) = true ∧ opsOk rest = true := by
        unfold opsOk at hops
        simpa using hops
      simp only [buildFilterParts, ha, evalToks, evalCondsSQL]
      rw [evalToksGo_spec r rest c.op (evalAtom r a) hskips' hops2.2 hops2.1,
        evalCond_eq_evalAtom r c a ha]
  · intro va vb vc r
    simp [buildFilterParts, atomFor, opToks, evalToks, evalToksGo, evalAtom]

/-- Claim C1 witness: the precedence equivalence at a concrete plan and record. -/
theorem c1_combination_precedence_witness :
    evalToks ⟨0, [], [], ("b c").data⟩
      (buildFilterParts [⟨.general, ("a").data, false, some .orOp⟩,
        ⟨.general, ("b").data, false, some .andOp⟩,
        ⟨.general, ("c").data, false, none⟩]) =
      evalCondsSQL ⟨0, [], [], ("b c").data⟩
        [⟨.general, ("a").data, false, some .orOp⟩,
         ⟨.general, ("b").data, false, some .andOp⟩,
         ⟨.general, ("c").data, false, none⟩] := by
  exact c1_combination_precedence.1
    [⟨.general, ("a").data, false, some .orOp⟩,
     ⟨.general, ("b").data, false, some .andOp⟩,
     ⟨.general, ("c").data, false, none⟩] ⟨0, [], [], ("b c").data⟩ (by decide) (by decide)

/-!
## Helper lemmas for the format/parse round trip (C9)
-/

theorem not_ws_of_isDig (c : Char) (h : isDig c = true) : isAsciiWs c = false := by
  unfold isAsciiWs
  simp only [decide_eq_false_iff_not]
  rintro (rfl | rfl | rfl | rfl | rfl | rfl) <;> exact absurd h (by decide)

theorem digitChar_ne (c : Char) (hc : isDig c = false) (n : Nat) : ¬ digitChar n = c := by
  intro h
  have hd := isDig_digitChar n
  rw [h, hc] at hd
  exact absurd hd (by decide)

theorem daysInMonth_le31 (y m : Nat) : daysInMonth y m ≤ 31 := by
  unfold daysInMonth
  split
  · split <;> omega
  · split <;> omega

theorem expectChar_cons (c : Char) (r : List Char) : expectChar c (c :: r) = some r := by
  simp [expectChar]

theorem read2_pad2 (n : Nat) (hn : n ≤ 99) (r : List Char) :
    read2 (pad2 n ++ r) = some (n, r) := by
  simp only [pad2, List.cons_append, List.nil_append, read2]
  rw [if_pos ⟨isDig_digitChar _, isDig_digitChar _⟩]
  simp only [dval_digitChar, Option.some.injEq, Prod.mk.injEq]
  exact ⟨by omega, trivial⟩

theorem read4_pad4 (n : Nat) (hn : n ≤ 9999) (r : List Char) :
    read4 (pad4 n ++ r) = some (n, r) := by
  simp only [pad4, List.cons_append, List.nil_append, read4]
  rw [if_pos ⟨isDig_digitChar _, isDig_digitChar _, isDig_digitChar _, isDig_digitChar _⟩]
  simp only [dval_digitChar, Option.some.injEq, Prod.mk.injEq]
  exact ⟨by omega, trivial⟩

theorem formatZ_eq (ts : Nat) :
    formatZ ts =
      pad4 (civilFromDays (ts / 86400)).1 ++
        ('-' :: (pad2 (civilFromDays (ts / 86400)).2.1 ++
          ('-' :: (pad2 (civilFromDays (ts / 86400)).2.2 ++
            ('T' :: (pad2 (ts % 86400 / 3600) ++
              (':' :: (pad2 (ts % 86400 % 3600 / 60) ++
                (':' :: (pad2 (ts % 86400 % 60) ++ ['Z'])))))))))) := by
  unfold formatZ isoformat
  simp [List.append_assoc]

theorem trim_formatZ (ts : Nat) : trim (formatZ ts) = formatZ ts := by
  have hdrop : (formatZ ts).dropWhile isAsciiWs = formatZ ts := by
    rw [formatZ_eq]
    simp only [pad4, List.cons_append]
    rw [List.dropWhile_cons_of_neg]
    simp [not_ws_of_isDig _ (isDig_digitChar _)]
  have hrev : (formatZ ts).reverse = 'Z' :: (isoformat ts).reverse := by
    unfold formatZ
    simp
  unfold trim lstripWs rstripWs
  rw [hdrop, hrev, List.dropWhile_cons_of_neg (by decide)]
  rw [← hrev, List.reverse_reverse]

theorem pyInt_formatZ (ts : Nat) : pyInt (formatZ ts) = none := by
  unfold pyInt
  rw [trim_formatZ, formatZ_eq]
  simp only [pad4, List.cons_append, List.nil_append]
  rw [if_neg (digitChar_ne '-' (by decide) _), if_neg (digitChar_ne '+' (by decide) _)]
  unfold digitsVal
  rw [if_neg]
  · rfl
  · intro hOk
    unfold digitsOk at hOk
    rw [Bool.and_eq_true] at hOk
    have h2 := hOk.2
    unfold digitsTail at h2
    rw [if_neg (digitChar_ne '_' (by decide) _), Bool.and_eq_true] at h2
    have h3 := h2.2
    unfold digitsTail at h3
    rw [if_neg (digitChar_ne '_' (by decide) _), Bool.and_eq_true] at h3
    have h4 := h3.2
    unfold digitsTail at h4
    rw [if_neg (digitChar_ne '_' (by decide) _), Bool.and_eq_true] at h4
    have h5 := h4.2
    unfold digitsTail at h5
    rw [if_neg (by decide : ¬ ('-' : Char) = '_'), Bool.and_eq_true] at h5
    exact absurd h5.1 (by decide)

theorem parseIsoWith_formatZ (ts : Nat) (hts : ts ≤ 253402300799) :
    parseIsoWith 'T' false (formatZ ts) = none ∧
    parseIsoWith 'T' true (formatZ ts) = some (ts : Int) := by
  have hn : ts / 86400 ≤ 2932896 := by
    have h1 : ts / 86400 ≤ 253402300799 / 86400 := Nat.div_le_div_right hts
    have h2 : (253402300799 : Nat) / 86400 = 2932896 := by norm_num
    omega
  have hdf := (civilFromDays_spec (ts / 86400)).2
  have h9999 := civilFromDays_year_le (ts / 86400) hn
  obtain ⟨hy1970, hmo1, hmo12, hd1, hdmax⟩ := (civilFromDays_spec (ts / 86400)).1
  have hy99 : (civilFromDays (ts / 86400)).1 ≤ 9999 := h9999
  have hmo99 : (civilFromDays (ts / 86400)).2.1 ≤ 99 := by omega
  have hd99 : (civilFromDays (ts / 86400)).2.2 ≤ 99 :=
    le_trans hdmax (le_trans (daysInMonth_le31 _ _) (by omega))
  have hh99 : ts % 86400 / 3600 ≤ 99 := by omega
  have hmi99 : ts % 86400 % 3600 / 60 ≤ 99 := by omega
  have hs99 : ts % 86400 % 60 ≤ 99 := by omega
  constructor
  · unfold parseIsoWith
    rw [formatZ_eq]
    simp only [read4_pad4 _ hy99, Option.some_bind, expectChar_cons,
      read2_pad2 _ hmo99, read2_pad2 _ hd99, read2_pad2 _ hh99, read2_pad2 _ hmi99,
      read2_pad2 _ hs99]
    simp [finishIso]
  · unfold parseIsoWith
    rw [formatZ_eq]
    simp only [read4_pad4 _ hy99, Option.some_bind, expectChar_cons,
      read2_pad2 _ hmo99, read2_pad2 _ hd99, read2_pad2 _ hh99, read2_pad2 _ hmi99,
      read2_pad2 _ hs99, if_true]
    unfold finishIso
    rw [if_pos ⟨rfl, by omega, hmo1, hmo12, hd1, hdmax, by omega, by omega, by omega⟩]
    unfold timestampOfCivil
    rw [hdf]
    push_cast
    simp only [Option.some.injEq]
    omega

/-- Claim C9: formatting a whole-second instant with the ISO-`Z` display format and
parsing the result with `parse_timestamp` reproduces the instant.  Every
instant produced by ingestion satisfies the bound (its reference date's year
is at most 9999, the maximum of Python's `datetime`). -/
theorem c9_format_parse_roundtrip (ts : Nat) (hts : ts ≤ 253402300799) :
    parse_timestamp (formatZ ts) = some (ts : Int) := by
  simp only [parse_timestamp, trim_formatZ, pyInt_formatZ,
    (parseIsoWith_formatZ ts hts).1, (parseIsoWith_formatZ ts hts).2]

/-- Claim C9 witness: the round trip at a concrete whole-second instant. -/
theorem c9_format_parse_roundtrip_witness :
    parse_timestamp (formatZ 90061) = some (90061 : Int) := by
  exact c9_format_parse_roundtrip 90061 (by decide)

end LogAnalyzer
